import Mathlib

/-!
Verification of the DCA comparison tool (streamlit_app.py).

The embedding models the numeric pipeline of the application exactly:

* Numeric values follow IEEE-style float semantics over exact rationals:
  a value is either a finite rational, NaN, or a signed infinity.  This
  captures the special values numpy produces on division by zero and the
  NaN entries pandas uses for missing data, while keeping finite
  arithmetic exact.
* Timestamps are whole days (Nat).  Day 0 is a Monday, so a day d is a
  Monday exactly when d mod 7 = 0.  The monthly calendar is anchored so
  that day 0 is 2001-01-01 (which really is a Monday).
* Weekly resampling with anchor W-MON groups observations into buckets
  (previous Monday, this Monday], labelled by the closing Monday; monthly
  resampling groups by calendar month, labelled by the last day of the
  month.  As in pandas, every bucket between the first and the last
  observation appears in the output, and a bucket with no (non-NaN)
  observation gets the value NaN.
-/

namespace DcaApp

/-- IEEE-style numeric value: finite rational, NaN, or signed infinity. -/
inductive NumV where
  | fin : ℚ → NumV
  | nan : NumV
  | inf : NumV
  | ninf : NumV
deriving DecidableEq, Repr

namespace NumV

/-- NaN test, as numpy isnan. -/
def isNan : NumV → Bool
  | nan => true
  | _ => false

/-- IEEE addition. -/
def add : NumV → NumV → NumV
  | nan, _ => nan
  | _, nan => nan
  | fin a, fin b => fin (a + b)
  | inf, ninf => nan
  | ninf, inf => nan
  | inf, _ => inf
  | _, inf => inf
  | ninf, _ => ninf
  | _, ninf => ninf

/-- IEEE negation. -/
def neg : NumV → NumV
  | fin a => fin (-a)
  | nan => nan
  | inf => ninf
  | ninf => inf

/-- IEEE subtraction. -/
def sub (x y : NumV) : NumV := x.add y.neg

/-- IEEE multiplication. -/
def mul : NumV → NumV → NumV
  | nan, _ => nan
  | _, nan => nan
  | fin a, fin b => fin (a * b)
  | inf, inf => inf
  | inf, ninf => ninf
  | ninf, inf => ninf
  | ninf, ninf => inf
  | inf, fin b => if b = 0 then nan else if 0 < b then inf else ninf
  | fin a, inf => if a = 0 then nan else if 0 < a then inf else ninf
  | ninf, fin b => if b = 0 then nan else if 0 < b then ninf else inf
  | fin a, ninf => if a = 0 then nan else if 0 < a then ninf else inf

/-- IEEE division (ignoring the sign of zero: x/0 takes the sign of x). -/
def div : NumV → NumV → NumV
  | nan, _ => nan
  | _, nan => nan
  | fin a, fin b =>
      if b = 0 then (if a = 0 then nan else if 0 < a then inf else ninf)
      else fin (a / b)
  | fin _, inf => fin 0
  | fin _, ninf => fin 0
  | inf, fin b => if 0 ≤ b then inf else ninf
  | ninf, fin b => if 0 ≤ b then ninf else inf
  | inf, inf => nan
  | inf, ninf => nan
  | ninf, inf => nan
  | ninf, ninf => nan

/-- IEEE comparison: less-or-equal; any comparison with NaN is false. -/
def leb : NumV → NumV → Bool
  | nan, _ => false
  | _, nan => false
  | ninf, _ => true
  | _, ninf => false
  | fin a, fin b => decide (a ≤ b)
  | _, inf => true
  | inf, _ => false

/-- IEEE comparison: strictly less; any comparison with NaN is false. -/
def ltb : NumV → NumV → Bool
  | nan, _ => false
  | _, nan => false
  | ninf, ninf => false
  | ninf, _ => true
  | _, ninf => false
  | fin a, fin b => decide (a < b)
  | inf, _ => false
  | _, inf => true

end NumV

/-- Gregorian leap year test. -/
def isLeap (y : Nat) : Bool := (y % 4 == 0 && y % 100 != 0) || (y % 400 == 0)

/-- Number of days of month m (1..12) in year y. -/
def daysInMonth (y m : Nat) : Nat :=
  if m = 2 then (if isLeap y then 29 else 28)
  else if m = 4 ∨ m = 6 ∨ m = 9 ∨ m = 11 then 30
  else 31

/-- Walk the calendar forward from year y, month m, with d days remaining.
Fuel bounds the recursion; it is always called with enough fuel. -/
def findYM : Nat → Nat → Nat → Nat → Nat × Nat × Nat
  | 0, y, m, d => (y, m, d)
  | fuel + 1, y, m, d =>
    if daysInMonth y m ≤ d then
      if m = 12 then findYM fuel (y + 1) 1 (d - daysInMonth y m)
      else findYM fuel y (m + 1) (d - daysInMonth y m)
    else (y, m, d)

/-- Civil date (year, month, zero-based day of month) of a day count,
with day 0 = 2001-01-01. -/
def civil (day : Nat) : Nat × Nat × Nat := findYM (day + 1) 2001 1 day

/-- The last day of the calendar month containing the given day. -/
def monthEnd (day : Nat) : Nat :=
  let c := civil day
  day + (daysInMonth c.1 c.2.1 - 1 - c.2.2)

/-- The Monday closing the W-MON bucket of the given day (day 0 = Monday,
so Mondays are exactly the multiples of 7; a Monday closes its own bucket). -/
def weekEnd (d : Nat) : Nat := d + (7 - d % 7) % 7

/-- Contribution cadence. -/
inductive Freq where
  | weekly
  | monthly
deriving DecidableEq, Repr

/-- The day divisor used for the Total_Invested column: 7 for weekly,
30 for monthly. -/
def freqDivisor : Freq → Int
  | .weekly => 7
  | .monthly => 30

/-- Bucket label of a day under the given cadence. -/
def binOf : Freq → Nat → Nat
  | .weekly, d => weekEnd d
  | .monthly, d => monthEnd d

/-- Successive month-end labels from b up to and including target.
Fuel bounds the recursion; it is always called with enough fuel. -/
def monthBinsAux : Nat → Nat → Nat → List Nat
  | 0, b, _ => [b]
  | fuel + 1, b, target =>
    if target ≤ b then [b] else b :: monthBinsAux fuel (monthEnd (b + 1)) target

/-- All resampling bucket labels between the first and last observation
day, empty buckets included, as pandas resample generates them. -/
def binsFor : Freq → Nat → Nat → List Nat
  | .weekly, f, l =>
      (List.range ((weekEnd l - weekEnd f) / 7 + 1)).map (fun i => weekEnd f + 7 * i)
  | .monthly, f, l => monthBinsAux (monthEnd l + 1) (monthEnd f) (monthEnd l)

/-- A price column: an ordered list of (day, value) observations. -/
abbrev Col := List (Nat × NumV)

/-- The non-NaN observations of a column falling into bucket b. -/
def bucketVals (freq : Freq) (col : Col) (b : Nat) : List NumV :=
  (col.filter (fun p => binOf freq p.1 == b && !p.2.isNan)).map (·.2)

/-- The value a bucket receives under resample(...).mean(): the mean of
its non-NaN observations, or NaN if there are none. -/
def bucketMean (freq : Freq) (col : Col) (b : Nat) : NumV :=
  let vs := bucketVals freq col b
  if vs.isEmpty then NumV.nan
  else NumV.div (vs.foldl NumV.add (NumV.fin 0)) (NumV.fin vs.length)

/-- df.resample(W-MON or M).mean(): one labelled row per bucket between
the first and last observation, NaN for empty buckets. -/
def resample (freq : Freq) (col : Col) : Col :=
  match col.head?, col.getLast? with
  | some f, some l => (binsFor freq f.1 l.1).map (fun b => (b, bucketMean freq col b))
  | _, _ => []

/-- The Shares column: amount / price per resampled row. -/
def shareCol (amount : ℚ) (rs : Col) : List NumV :=
  rs.map (fun p => NumV.div (NumV.fin amount) p.2)

/-- pandas cumsum with skipna=True: NaN rows stay NaN and are skipped by
the running accumulator. -/
def cumsumSkipNaAux (acc : NumV) : List NumV → List NumV
  | [] => []
  | x :: xs =>
    if x.isNan then NumV.nan :: cumsumSkipNaAux acc xs
    else NumV.add acc x :: cumsumSkipNaAux (NumV.add acc x) xs

/-- The Cumulative_Shares column. -/
def cumsumSkipNa (xs : List NumV) : List NumV := cumsumSkipNaAux (NumV.fin 0) xs

/-- The Total_Invested column: amount * ((period_end - start).days // divisor),
with Python floor division on integers. -/
def investedCol (amount : ℚ) (freq : Freq) (start : Nat) (rs : Col) : List NumV :=
  rs.map (fun p =>
    NumV.fin (amount * ((((p.1 : Int) - (start : Int)).fdiv (freqDivisor freq) : Int) : ℚ)))

/-- One row of the derived DataFrame returned by calculate_dca. -/
structure DcaRow where
  periodEnd : Nat
  price : NumV
  shares : NumV
  cumShares : NumV
  totalInvested : NumV
  portfolioValue : NumV
deriving DecidableEq, Repr

/-- Zip the resampled prices and the derived columns into rows; the
Portfolio_Value column is Total_Invested for the cash ticker and
Cumulative_Shares * price otherwise. -/
def assembleRows (isUSD : Bool) : Col → List NumV → List NumV → List NumV → List DcaRow
  | (b, pr) :: rs, sh :: shs, cs :: css, ti :: tis =>
      { periodEnd := b, price := pr, shares := sh, cumShares := cs, totalInvested := ti,
        portfolioValue := if isUSD then ti else NumV.mul cs pr }
        :: assembleRows isUSD rs shs css tis
  | _, _, _, _ => []

/-- Column lookup in the fetched DataFrame; none models the KeyError
raised by data[[ticker]] on a missing column. -/
def lookupCol (data : List (String × Col)) (t : String) : Option Col :=
  (data.find? (fun p => p.1 == t)).map (·.2)

/-- pd.date_range(start, end, freq=D) with a constant price of 1.0:
the synthetic daily series for the cash asset. -/
def dateRangeDaily (s e : Nat) : Col :=
  (List.range (e + 1 - s)).map (fun i => (s + i, NumV.fin 1))

/-- The price series calculate_dca derives: the synthetic cash series for
ticker USD, otherwise the fetched column (none = KeyError). -/
def sourceSeries (ticker : String) (data : List (String × Col)) (s e : Nat) : Option Col :=
  if ticker == "USD" then some (dateRangeDaily s e) else lookupCol data ticker

/-- The DCA engine, translated line by line from calculate_dca:
resample the series, derive Shares, Cumulative_Shares, Total_Invested and
Portfolio_Value, and return the rows.  The error case models the uncaught
KeyError when the ticker column is missing from the fetched data. -/
def calculate_dca (asset ticker : String) (data : List (String × Col)) (amount : ℚ)
    (frequency : Freq) (start_date end_date : Nat) : Except String (List DcaRow) :=
  match sourceSeries ticker data start_date end_date with
  | none => Except.error ("KeyError: " ++ ticker)
  | some df =>
    let rs := resample frequency df
    Except.ok (assembleRows (ticker == "USD") rs (shareCol amount rs)
      (cumsumSkipNa (shareCol amount rs)) (investedCol amount frequency start_date rs))

/-- Insert a day into a sorted duplicate-free list of days. -/
def insertDay (d : Nat) : List Nat → List Nat
  | [] => [d]
  | x :: xs => if d < x then d :: x :: xs else if d = x then x :: xs else x :: insertDay d xs

/-- The sorted union of all observation days of the fetched columns. -/
def unionDays (cols : List (String × Col)) : List Nat :=
  ((cols.map (fun c => c.2.map (·.1))).flatten).foldr insertDay []

/-- The value of a column at a day, NaN when the day is missing. -/
def lookupDay (col : Col) (d : Nat) : NumV :=
  match col.find? (fun p => p.1 == d) with
  | some p => p.2
  | none => NumV.nan

/-- pd.DataFrame(dict of Series): align every column on the union of all
observation days, filling missing days with NaN. -/
def alignFrame (cols : List (String × Col)) : List (String × Col) :=
  let days := unionDays cols
  cols.map (fun c => (c.1, days.map (fun d => (d, lookupDay c.2 d))))

/-- fetch_stock_data: skip the USD ticker, drop every ticker whose fetch
fails (the caught per-ticker exception), and build the aligned DataFrame
from the successful ones.  The provider is passed as an oracle. -/
def fetch_stock_data (fetch : String → Option Col) (tickers : List String) :
    List (String × Col) :=
  alignFrame (tickers.filterMap (fun t =>
    if t == "USD" then none else (fetch t).map (fun c => (t, c))))

/-- The asset universe of the application. -/
def ASSET_MAPPINGS : List (String × String) :=
  [("Bitcoin", "BTC-USD"), ("MSTR", "MSTR"), ("S&P 500", "^GSPC"),
   ("Gold", "GC=F"), ("Cash", "USD"), ("Russell 3000", "^RUA")]

/-- Display name to ticker. -/
def assetTicker (asset : String) : String :=
  ((ASSET_MAPPINGS.find? (fun p => p.1 == asset)).map (·.2)).getD ""

/-- DataFrame.empty: no columns, or every column has zero rows. -/
def frameEmpty (data : List (String × Col)) : Bool := data.all (fun c => c.2.isEmpty)

/-- The analysis portion of main: fetch all tickers, then compute one
trajectory per selected asset.  Its value is none when the guard
(data nonempty or USD selected) fails and nothing is computed, and an
error when a calculate_dca call raises (which aborts the whole loop,
exactly as an uncaught Python exception would). -/
def runAnalysis (fetch : String → Option Col) (selected_assets : List String) (amount : ℚ)
    (frequency : Freq) (start_date end_date : Nat) :
    Except String (Option (List (String × List DcaRow))) :=
  let tickers := selected_assets.map assetTicker
  let data := fetch_stock_data fetch tickers
  if !frameEmpty data || tickers.contains "USD" then do
    let results ← selected_assets.mapM (fun asset => do
      let traj ← calculate_dca asset (assetTicker asset) data amount frequency
        start_date end_date
      pure (asset, traj))
    pure (some results)
  else pure none

/-- One row of the summary table. -/
structure Summary where
  finalValue : NumV
  totalInvested : NumV
  gain : NumV
  roiPercent : NumV
deriving DecidableEq, Repr

/-- The summary statistics main computes from a trajectory: the last row
via iloc[-1] (none models the IndexError on an empty frame) and the
unguarded ROI division ((final / invested) - 1) * 100. -/
def summaryOf (rows : List DcaRow) : Option Summary :=
  match rows.getLast? with
  | none => none
  | some r =>
    some { finalValue := r.portfolioValue, totalInvested := r.totalInvested,
           gain := NumV.sub r.portfolioValue r.totalInvested,
           roiPercent := NumV.mul
             (NumV.sub (NumV.div r.portfolioValue r.totalInvested) (NumV.fin 1))
             (NumV.fin 100) }

/-! ### Basic structural lemmas -/

theorem length_cumsumSkipNaAux : ∀ (xs : List NumV) (acc : NumV),
    (cumsumSkipNaAux acc xs).length = xs.length := by
  intro xs
  induction xs with
  | nil => intro acc; rfl
  | cons x xs ih =>
    intro acc
    cases h : x.isNan <;> simp [cumsumSkipNaAux, h, ih]

theorem assembleRows_map_totalInvested (u : Bool) :
    ∀ (rs : Col) (shs css tis : List NumV), shs.length = rs.length →
      css.length = rs.length → tis.length = rs.length →
      (assembleRows u rs shs css tis).map (·.totalInvested) = tis := by
  intro rs
  induction rs with
  | nil =>
    intro shs css tis _ _ h3
    rw [List.length_nil] at h3
    rw [List.length_eq_zero.mp h3]
    cases shs <;> cases css <;> rfl
  | cons p rs ih =>
    intro shs css tis h1 h2 h3
    obtain ⟨b, pr⟩ := p
    cases shs with
    | nil => simp at h1
    | cons sh shs =>
      cases css with
      | nil => simp at h2
      | cons cs css =>
        cases tis with
        | nil => simp at h3
        | cons ti tis =>
          simp only [assembleRows, List.map_cons, List.cons.injEq, true_and]
          exact ih shs css tis (by simpa using h1) (by simpa using h2) (by simpa using h3)

theorem assembleRows_map_cumShares (u : Bool) :
    ∀ (rs : Col) (shs css tis : List NumV), shs.length = rs.length →
      css.length = rs.length → tis.length = rs.length →
      (assembleRows u rs shs css tis).map (·.cumShares) = css := by
  intro rs
  induction rs with
  | nil =>
    intro shs css tis _ h2 _
    rw [List.length_nil] at h2
    rw [List.length_eq_zero.mp h2]
    cases shs <;> rfl
  | cons p rs ih =>
    intro shs css tis h1 h2 h3
    obtain ⟨b, pr⟩ := p
    cases shs with
    | nil => simp at h1
    | cons sh shs =>
      cases css with
      | nil => simp at h2
      | cons cs css =>
        cases tis with
        | nil => simp at h3
        | cons ti tis =>
          simp only [assembleRows, List.map_cons, List.cons.injEq, true_and]
          exact ih shs css tis (by simpa using h1) (by simpa using h2) (by simpa using h3)

theorem assembleRows_map_price (u : Bool) :
    ∀ (rs : Col) (shs css tis : List NumV), shs.length = rs.length →
      css.length = rs.length → tis.length = rs.length →
      (assembleRows u rs shs css tis).map (·.price) = rs.map (·.2) := by
  intro rs
  induction rs with
  | nil => intro shs css tis _ _ _; cases shs <;> cases css <;> cases tis <;> rfl
  | cons p rs ih =>
    intro shs css tis h1 h2 h3
    obtain ⟨b, pr⟩ := p
    cases shs with
    | nil => simp at h1
    | cons sh shs =>
      cases css with
      | nil => simp at h2
      | cons cs css =>
        cases tis with
        | nil => simp at h3
        | cons ti tis =>
          simp only [assembleRows, List.map_cons, List.cons.injEq, true_and]
          exact ih shs css tis (by simpa using h1) (by simpa using h2) (by simpa using h3)

theorem assembleRows_portfolioValue (u : Bool) :
    ∀ (rs : Col) (shs css tis : List NumV) (r : DcaRow), r ∈ assembleRows u rs shs css tis →
      r.portfolioValue = if u then r.totalInvested else NumV.mul r.cumShares r.price := by
  intro rs
  induction rs with
  | nil => intro shs css tis r hr; cases shs <;> cases css <;> cases tis <;> simp [assembleRows] at hr
  | cons p rs ih =>
    intro shs css tis r hr
    obtain ⟨b, pr⟩ := p
    cases shs with
    | nil => simp [assembleRows] at hr
    | cons sh shs =>
      cases css with
      | nil => simp [assembleRows] at hr
      | cons cs css =>
        cases tis with
        | nil => simp [assembleRows] at hr
        | cons ti tis =>
          rcases List.mem_cons.mp hr with h | h
          · subst h; rfl
          · exact ih shs css tis r h

theorem assembleRows_shares (u : Bool) (a : ℚ) :
    ∀ (rs : Col) (css tis : List NumV) (r : DcaRow),
      r ∈ assembleRows u rs (shareCol a rs) css tis →
      r.shares = NumV.div (NumV.fin a) r.price := by
  intro rs
  induction rs with
  | nil => intro css tis r hr; cases css <;> cases tis <;> simp [assembleRows, shareCol] at hr
  | cons p rs ih =>
    intro css tis r hr
    obtain ⟨b, pr⟩ := p
    rw [show shareCol a ((b, pr) :: rs) =
      NumV.div (NumV.fin a) pr :: shareCol a rs from rfl] at hr
    cases css with
    | nil => simp [assembleRows] at hr
    | cons cs css =>
      cases tis with
      | nil => simp [assembleRows] at hr
      | cons ti tis =>
        rcases List.mem_cons.mp hr with h | h
        · subst h; rfl
        · exact ih css tis r h

theorem calculate_dca_ok {asset ticker : String} {data : List (String × Col)} {amount : ℚ}
    {f : Freq} {s e : Nat} {rows : List DcaRow}
    (h : calculate_dca asset ticker data amount f s e = .ok rows) :
    ∃ df, sourceSeries ticker data s e = some df ∧
      rows = assembleRows (ticker == "USD") (resample f df) (shareCol amount (resample f df))
        (cumsumSkipNa (shareCol amount (resample f df)))
        (investedCol amount f s (resample f df)) := by
  unfold calculate_dca at h
  cases hm : sourceSeries ticker data s e with
  | none => rw [hm] at h; cases h
  | some df =>
    rw [hm] at h
    simp only [Except.ok.injEq] at h
    exact ⟨df, rfl, h.symm⟩

/-! ### Claims C10, C6, C5, C3, C4 -/

/-- C10: the trajectory returned by calculate_dca does not depend on the
asset display-name argument: two calls that differ only in the display
name return identical results. -/
theorem C10_theorem (asset1 asset2 ticker : String) (data : List (String × Col)) (amount : ℚ)
    (frequency : Freq) (start_date end_date : Nat) :
    calculate_dca asset1 ticker data amount frequency start_date end_date =
      calculate_dca asset2 ticker data amount frequency start_date end_date := rfl

/-- C6: in every trajectory row, portfolio value equals cumulative shares
times the representative price for priced assets, and equals total
invested for the cash (USD) asset. -/
theorem C6_theorem (asset ticker : String) (data : List (String × Col)) (amount : ℚ)
    (frequency : Freq) (start_date end_date : Nat) (rows : List DcaRow)
    (h : calculate_dca asset ticker data amount frequency start_date end_date = .ok rows)
    (r : DcaRow) (hr : r ∈ rows) :
    r.portfolioValue = if ticker = "USD" then r.totalInvested
      else NumV.mul r.cumShares r.price := by
  obtain ⟨df, _, hrows⟩ := calculate_dca_ok h
  subst hrows
  have hres := assembleRows_portfolioValue (ticker == "USD") _ _ _ _ r hr
  simpa [beq_iff_eq] using hres

set_option maxHeartbeats 1000000 in
/-- C6 witness: concrete instance of the portfolio-value relation on a
one-row trajectory of a priced asset. -/
theorem C6_witness :
    (DcaRow.mk 0 (NumV.fin 100) (NumV.fin 1) (NumV.fin 1) (NumV.fin 0)
        (NumV.fin 100)).portfolioValue =
      if "T" = "USD" then
        (DcaRow.mk 0 (NumV.fin 100) (NumV.fin 1) (NumV.fin 1) (NumV.fin 0)
          (NumV.fin 100)).totalInvested
      else NumV.mul
        (DcaRow.mk 0 (NumV.fin 100) (NumV.fin 1) (NumV.fin 1) (NumV.fin 0)
          (NumV.fin 100)).cumShares
        (DcaRow.mk 0 (NumV.fin 100) (NumV.fin 1) (NumV.fin 1) (NumV.fin 0)
          (NumV.fin 100)).price :=
  C6_theorem "A" "T" [("T", [(0, NumV.fin 100)])] 100 .weekly 0 0
    [DcaRow.mk 0 (NumV.fin 100) (NumV.fin 1) (NumV.fin 1) (NumV.fin 0) (NumV.fin 100)]
    (by norm_num [calculate_dca, sourceSeries, lookupCol, resample, binsFor, weekEnd,
      bucketMean, bucketVals, binOf, NumV.isNan, NumV.add, NumV.div, NumV.mul,
      shareCol, cumsumSkipNa, cumsumSkipNaAux, investedCol, assembleRows, freqDivisor,
      Int.fdiv, List.range_succ, List.find?,
      show (("T" : String) == "USD") = false from rfl,
      show (("T" : String) == "T") = true from rfl])
    _ (List.mem_singleton.mpr rfl)

set_option maxHeartbeats 1000000 in
/-- C5 counterexample: a zero representative price is not rejected; the
engine computes infinite shares which propagate into cumulative shares
and produce NaN and infinite portfolio values downstream. -/
theorem C5_counterexample :
    calculate_dca "A" "T" [("T", [(0, NumV.fin 0), (7, NumV.fin 10)])] 100 .weekly 0 7 =
      Except.ok
        [DcaRow.mk 0 (NumV.fin 0) NumV.inf NumV.inf (NumV.fin 0) NumV.nan,
         DcaRow.mk 7 (NumV.fin 10) (NumV.fin 10) NumV.inf (NumV.fin 100) NumV.inf] := by
  norm_num [calculate_dca, sourceSeries, lookupCol, resample, binsFor, weekEnd,
    bucketMean, bucketVals, binOf, NumV.isNan, NumV.add, NumV.div, NumV.mul,
    shareCol, cumsumSkipNa, cumsumSkipNaAux, investedCol, assembleRows, freqDivisor,
    Int.fdiv, List.range_succ, List.find?,
    show (("T" : String) == "USD") = false from rfl,
    show (("T" : String) == "T") = true from rfl]

/-- C5 amended: the engine does not reject a zero-price period; whenever a
period resolves to representative price 0 and the amount is positive, the
shares purchased that period are positive infinity (which then propagates
into cumulative shares and portfolio value as infinities and NaNs). -/
theorem C5_amended (asset ticker : String) (data : List (String × Col)) (amount : ℚ)
    (frequency : Freq) (start_date end_date : Nat) (rows : List DcaRow)
    (h : calculate_dca asset ticker data amount frequency start_date end_date = .ok rows)
    (ha : 0 < amount) (r : DcaRow) (hr : r ∈ rows) (hp : r.price = NumV.fin 0) :
    r.shares = NumV.inf := by
  obtain ⟨df, _, hrows⟩ := calculate_dca_ok h
  subst hrows
  have hs := assembleRows_shares (ticker == "USD") amount _ _ _ r hr
  rw [hs, hp]
  simp [NumV.div, ha, ha.ne']

set_option maxHeartbeats 1000000 in
/-- C5 witness: the amended statement applied to the concrete zero-price
run. -/
theorem C5_witness :
    (DcaRow.mk 0 (NumV.fin 0) NumV.inf NumV.inf (NumV.fin 0) NumV.nan).shares = NumV.inf :=
  C5_amended "A" "T" [("T", [(0, NumV.fin 0), (7, NumV.fin 10)])] 100 .weekly 0 7
    [DcaRow.mk 0 (NumV.fin 0) NumV.inf NumV.inf (NumV.fin 0) NumV.nan,
     DcaRow.mk 7 (NumV.fin 10) (NumV.fin 10) NumV.inf (NumV.fin 100) NumV.inf]
    (by norm_num [calculate_dca, sourceSeries, lookupCol, resample, binsFor, weekEnd,
      bucketMean, bucketVals, binOf, NumV.isNan, NumV.add, NumV.div, NumV.mul,
      shareCol, cumsumSkipNa, cumsumSkipNaAux, investedCol, assembleRows, freqDivisor,
      Int.fdiv, List.range_succ, List.find?,
      show (("T" : String) == "USD") = false from rfl,
      show (("T" : String) == "T") = true from rfl])
    (by norm_num) _ (List.mem_cons_self _ _) rfl

set_option maxHeartbeats 1000000 in
/-- C3 counterexample: a weekly bucket containing zero observations is not
omitted: with observations only on days 0 and 14, the middle bucket
(ending day 7) is emitted as a NaN-price row, and the whole NaN row is
carried through the trajectory. -/
theorem C3_counterexample :
    calculate_dca "A" "T" [("T", [(0, NumV.fin 10), (14, NumV.fin 20)])] 100 .weekly 0 14 =
      Except.ok
        [DcaRow.mk 0 (NumV.fin 10) (NumV.fin 10) (NumV.fin 10) (NumV.fin 0) (NumV.fin 100),
         DcaRow.mk 7 NumV.nan NumV.nan NumV.nan (NumV.fin 100) NumV.nan,
         DcaRow.mk 14 (NumV.fin 20) (NumV.fin 5) (NumV.fin 15) (NumV.fin 200) (NumV.fin 300)] ∧
    (7, NumV.nan) ∈ resample .weekly [(0, NumV.fin 10), (14, NumV.fin 20)] := by
  constructor
  · norm_num [calculate_dca, sourceSeries, lookupCol, resample, binsFor, weekEnd,
      bucketMean, bucketVals, binOf, NumV.isNan, NumV.add, NumV.div, NumV.mul,
      shareCol, cumsumSkipNa, cumsumSkipNaAux, investedCol, assembleRows, freqDivisor,
      Int.fdiv, List.range_succ, List.find?,
      show (("T" : String) == "USD") = false from rfl,
      show (("T" : String) == "T") = true from rfl]
  · norm_num [resample, binsFor, weekEnd, bucketMean, bucketVals, binOf, NumV.isNan,
      NumV.add, NumV.div, List.range_succ]

/-- C3 amended: the aggregation step emits one record per bucket between
the first and last observation, empty buckets included: a bucket with no
non-NaN observation appears in the output as a NaN-price row rather than
being omitted. -/
theorem C3_amended (freq : Freq) (col : Col) (pf pl : Nat × NumV)
    (hh : col.head? = some pf) (hl : col.getLast? = some pl)
    (b : Nat) (hb : b ∈ binsFor freq pf.1 pl.1)
    (hempty : ∀ p ∈ col, binOf freq p.1 = b → p.2.isNan = true) :
    (b, NumV.nan) ∈ resample freq col ∧
      (resample freq col).length = (binsFor freq pf.1 pl.1).length := by
  unfold resample
  rw [hh, hl]
  refine ⟨?_, by simp⟩
  apply List.mem_map.mpr
  refine ⟨b, hb, ?_⟩
  have hv : bucketVals freq col b = [] := by
    unfold bucketVals
    rw [List.map_eq_nil_iff]
    rw [List.filter_eq_nil_iff]
    intro p hp
    simp only [Bool.and_eq_true, beq_iff_eq, Bool.not_eq_true']
    intro hcontr
    exact absurd (hempty p hp hcontr.1) (by simp [hcontr.2])
  simp [bucketMean, hv]

set_option maxHeartbeats 1000000 in
/-- C3 witness: the amended statement applied to the concrete gap series,
showing the empty bucket ending day 7 is emitted with a NaN price. -/
theorem C3_witness :
    (7, NumV.nan) ∈ resample .weekly [(0, NumV.fin 10), (14, NumV.fin 20)] ∧
      (resample .weekly [(0, NumV.fin 10), (14, NumV.fin 20)]).length =
        (binsFor .weekly 0 14).length :=
  C3_amended .weekly [(0, NumV.fin 10), (14, NumV.fin 20)] (0, NumV.fin 10) (14, NumV.fin 20)
    rfl rfl 7 (by decide) (by decide)

set_option maxHeartbeats 1000000 in
/-- C4 counterexample: a window too short to complete one cadence period
is not rejected: the cash trajectory for a five-day window has final total
invested 0, yet the summary is still produced and its ROI is silently NaN
(from the unguarded 0/0 division) instead of an explicit Undefined
condition. -/
theorem C4_counterexample :
    calculate_dca "Cash" "USD" [] 100 .weekly 1 5 =
      Except.ok [DcaRow.mk 7 (NumV.fin 1) (NumV.fin 100) (NumV.fin 100) (NumV.fin 0)
        (NumV.fin 0)] ∧
    summaryOf [DcaRow.mk 7 (NumV.fin 1) (NumV.fin 100) (NumV.fin 100) (NumV.fin 0)
        (NumV.fin 0)] =
      some (Summary.mk (NumV.fin 0) (NumV.fin 0) (NumV.fin 0) NumV.nan) := by
  constructor
  · norm_num [calculate_dca, sourceSeries, dateRangeDaily, resample, binsFor, weekEnd,
      bucketMean, bucketVals, binOf, NumV.isNan, NumV.add, NumV.div, NumV.mul,
      shareCol, cumsumSkipNa, cumsumSkipNaAux, investedCol, assembleRows, freqDivisor,
      Int.fdiv, List.range_succ]
  · norm_num [summaryOf, NumV.div, NumV.sub, NumV.neg, NumV.add, NumV.mul]

/-- C4 amended: summary reduction is not guarded: when the final period
total invested is 0 and the final portfolio value is the finite v, the ROI
division is performed anyway and silently yields NaN (v = 0), plus
infinity (v positive) or minus infinity (v negative); no Undefined
condition is raised. -/
theorem C4_amended (rows : List DcaRow) (r : DcaRow) (v : ℚ)
    (hl : rows.getLast? = some r) (hti : r.totalInvested = NumV.fin 0)
    (hpv : r.portfolioValue = NumV.fin v) :
    summaryOf rows = some
      { finalValue := NumV.fin v, totalInvested := NumV.fin 0,
        gain := NumV.fin v,
        roiPercent := if v = 0 then NumV.nan
          else if 0 < v then NumV.inf else NumV.ninf } := by
  have h1 : summaryOf rows = some
      { finalValue := r.portfolioValue, totalInvested := r.totalInvested,
        gain := NumV.sub r.portfolioValue r.totalInvested,
        roiPercent := NumV.mul
          (NumV.sub (NumV.div r.portfolioValue r.totalInvested) (NumV.fin 1))
          (NumV.fin 100) } := by
    unfold summaryOf
    rw [hl]
  rw [h1, hti, hpv]
  have hgain : NumV.sub (NumV.fin v) (NumV.fin 0) = NumV.fin v := by
    simp [NumV.sub, NumV.neg, NumV.add]
  rcases lt_trichotomy v 0 with hv | hv | hv
  · have hdiv : NumV.div (NumV.fin v) (NumV.fin 0) = NumV.ninf := by
      simp [NumV.div, hv.ne, not_lt.mpr hv.le]
    simp [hgain, hdiv, NumV.sub, NumV.neg, NumV.add, NumV.mul, hv.ne, not_lt.mpr hv.le]
  · subst hv
    have hdiv : NumV.div (NumV.fin 0) (NumV.fin 0) = NumV.nan := by
      simp [NumV.div]
    simp [hgain, hdiv, NumV.sub, NumV.neg, NumV.add, NumV.mul]
  · have hdiv : NumV.div (NumV.fin v) (NumV.fin 0) = NumV.inf := by
      simp [NumV.div, hv.ne', hv]
    simp [hgain, hdiv, NumV.sub, NumV.neg, NumV.add, NumV.mul, hv.ne', hv]

/-- C4 witness: the amended statement applied to the concrete short-window
cash trajectory. -/
theorem C4_witness :
    summaryOf [DcaRow.mk 7 (NumV.fin 1) (NumV.fin 100) (NumV.fin 100) (NumV.fin 0)
        (NumV.fin 0)] =
      some
      { finalValue := NumV.fin 0, totalInvested := NumV.fin 0,
        gain := NumV.fin 0,
        roiPercent := if (0 : ℚ) = 0 then NumV.nan
          else if 0 < (0 : ℚ) then NumV.inf else NumV.ninf } :=
  C4_amended [DcaRow.mk 7 (NumV.fin 1) (NumV.fin 100) (NumV.fin 100) (NumV.fin 0)
    (NumV.fin 0)] _ 0 rfl rfl rfl

/-! ### Claim C2: per-symbol fetch failure -/

/-- C2: evaluation of the code at the failing input.  The provider
succeeds only for the S&P 500 ticker.  fetch_stock_data correctly drops
the failed Bitcoin ticker and keeps the other column, but main still
iterates over every selected asset, so calculate_dca raises a KeyError
for the missing Bitcoin column and the whole run aborts: no mapping is
produced at all, instead of Bitcoin alone being excluded. -/
theorem C2_theorem :
    fetch_stock_data
        (fun t => if t == "^GSPC" then some [(0, NumV.fin 100)] else none)
        ["BTC-USD", "^GSPC"] = [("^GSPC", [(0, NumV.fin 100)])] ∧
    runAnalysis
        (fun t => if t == "^GSPC" then some [(0, NumV.fin 100)] else none)
        ["Bitcoin", "S&P 500"] 100 .weekly 0 7 =
      Except.error "KeyError: BTC-USD" :=
  ⟨rfl, rfl⟩

/-! ### Claim C9: linearity in the contribution amount -/

theorem mul2_isNan (x : NumV) : (NumV.mul (NumV.fin 2) x).isNan = x.isNan := by
  have h2 : ¬ (2:ℚ) = 0 := by norm_num
  have h2' : (0:ℚ) < 2 := by norm_num
  cases x <;> simp [NumV.mul, NumV.isNan, h2, h2']

theorem mul2_add (x y : NumV) :
    NumV.mul (NumV.fin 2) (NumV.add x y) =
      NumV.add (NumV.mul (NumV.fin 2) x) (NumV.mul (NumV.fin 2) y) := by
  have h2 : ¬ (2:ℚ) = 0 := by norm_num
  have h2' : (0:ℚ) < 2 := by norm_num
  cases x <;> cases y <;> simp [NumV.add, NumV.mul, h2, h2', mul_add]

theorem mul2_div (a : ℚ) (p : NumV) :
    NumV.mul (NumV.fin 2) (NumV.div (NumV.fin a) p) =
      NumV.div (NumV.fin (2 * a)) p := by
  have h2 : ¬ (2:ℚ) = 0 := by norm_num
  have h2' : (0:ℚ) < 2 := by norm_num
  cases p with
  | nan => rfl
  | inf => simp [NumV.div, NumV.mul]
  | ninf => simp [NumV.div, NumV.mul]
  | fin b =>
    by_cases hb : b = 0
    · subst hb
      rcases lt_trichotomy a 0 with ha | ha | ha
      · have h2a : 2 * a < 0 := by nlinarith
        simp [NumV.div, NumV.mul, ha.ne, not_lt.mpr ha.le, h2a.ne, not_lt.mpr h2a.le,
          h2, h2']
      · subst ha
        simp [NumV.div, NumV.mul]
      · have h2a : 0 < 2 * a := by nlinarith
        simp [NumV.div, NumV.mul, ha.ne', ha, h2a.ne', h2a, h2, h2']
    · have hd : 2 * a / b = 2 * (a / b) := by ring
      simp [NumV.div, NumV.mul, hb, hd]

theorem shareCol_scale (a : ℚ) (rs : Col) :
    shareCol (2 * a) rs = (shareCol a rs).map (NumV.mul (NumV.fin 2)) := by
  unfold shareCol
  rw [List.map_map]
  exact List.map_congr_left (fun p _ => (mul2_div a p.2).symm)

theorem investedCol_scale (a : ℚ) (f : Freq) (s : Nat) (rs : Col) :
    investedCol (2 * a) f s rs = (investedCol a f s rs).map (NumV.mul (NumV.fin 2)) := by
  unfold investedCol
  rw [List.map_map]
  refine List.map_congr_left (fun p _ => ?_)
  simp [NumV.mul, mul_assoc]

theorem cumsumSkipNaAux_scale : ∀ (xs : List NumV) (acc : NumV),
    cumsumSkipNaAux (NumV.mul (NumV.fin 2) acc) (xs.map (NumV.mul (NumV.fin 2))) =
      (cumsumSkipNaAux acc xs).map (NumV.mul (NumV.fin 2)) := by
  intro xs
  induction xs with
  | nil => intro acc; rfl
  | cons x xs ih =>
    intro acc
    cases h : x.isNan with
    | true =>
      simp [cumsumSkipNaAux, mul2_isNan, h, ih,
        show NumV.mul (NumV.fin 2) NumV.nan = NumV.nan from rfl]
    | false =>
      simp [cumsumSkipNaAux, mul2_isNan, h, ih, ← mul2_add]

theorem cumsumSkipNa_scale (xs : List NumV) :
    cumsumSkipNa (xs.map (NumV.mul (NumV.fin 2))) =
      (cumsumSkipNa xs).map (NumV.mul (NumV.fin 2)) := by
  unfold cumsumSkipNa
  have h0 : NumV.fin 0 = NumV.mul (NumV.fin 2) (NumV.fin 0) := by
    simp [NumV.mul]
  calc cumsumSkipNaAux (NumV.fin 0) (xs.map (NumV.mul (NumV.fin 2)))
      = cumsumSkipNaAux (NumV.mul (NumV.fin 2) (NumV.fin 0))
          (xs.map (NumV.mul (NumV.fin 2))) := by rw [← h0]
    _ = (cumsumSkipNaAux (NumV.fin 0) xs).map (NumV.mul (NumV.fin 2)) :=
        cumsumSkipNaAux_scale xs _

theorem assembleRows_scale (u : Bool) :
    ∀ (rs : Col) (shs css tis : List NumV),
      (assembleRows u rs (shs.map (NumV.mul (NumV.fin 2))) (css.map (NumV.mul (NumV.fin 2)))
        (tis.map (NumV.mul (NumV.fin 2)))).map (fun r => (r.cumShares, r.totalInvested)) =
      (assembleRows u rs shs css tis).map (fun r =>
        (NumV.mul (NumV.fin 2) r.cumShares, NumV.mul (NumV.fin 2) r.totalInvested)) := by
  intro rs
  induction rs with
  | nil => intro shs css tis; cases shs <;> cases css <;> cases tis <;> rfl
  | cons p rs ih =>
    intro shs css tis
    obtain ⟨b, pr⟩ := p
    cases shs with
    | nil => rfl
    | cons sh shs =>
      cases css with
      | nil => rfl
      | cons cs css =>
        cases tis with
        | nil => rfl
        | cons ti tis =>
          simp only [List.map_cons, assembleRows, List.cons.injEq, true_and]
          exact ih shs css tis

/-- C9: the engine is linear in the contribution amount: doubling the
amount (all other inputs equal) exactly doubles cumulative_shares and
cumulative_invested at every shared period, under the same IEEE
arithmetic, including the NaN and infinity cases. -/
theorem C9_theorem (asset ticker : String) (data : List (String × Col)) (amount : ℚ)
    (frequency : Freq) (start_date end_date : Nat) :
    Except.map (List.map (fun r => (r.cumShares, r.totalInvested)))
      (calculate_dca asset ticker data (2 * amount) frequency start_date end_date) =
    Except.map (List.map (fun r =>
        (NumV.mul (NumV.fin 2) r.cumShares, NumV.mul (NumV.fin 2) r.totalInvested)))
      (calculate_dca asset ticker data amount frequency start_date end_date) := by
  unfold calculate_dca
  cases sourceSeries ticker data start_date end_date with
  | none => rfl
  | some df =>
    simp only [Except.map]
    rw [shareCol_scale, cumsumSkipNa_scale, investedCol_scale]
    exact congrArg Except.ok (assembleRows_scale (ticker == "USD") _ _ _ _)

/-! ### Claim C1: cash-asset invested amount vs the 1-based period index -/

theorem weekEnd_ge (d : Nat) : d ≤ weekEnd d := Nat.le_add_right _ _

theorem weekEnd_sub_lt (s : Nat) : weekEnd s - s < 7 := by
  unfold weekEnd; omega

theorem dateRangeDaily_head (s e : Nat) (h : s ≤ e) :
    (dateRangeDaily s e).head? = some (s, NumV.fin 1) := by
  unfold dateRangeDaily
  rw [List.head?_eq_getElem?, List.getElem?_map, List.getElem?_range (by omega : 0 < e + 1 - s)]
  simp

theorem dateRangeDaily_getLast (s e : Nat) (h : s ≤ e) :
    (dateRangeDaily s e).getLast? = some (e, NumV.fin 1) := by
  unfold dateRangeDaily
  rw [List.getLast?_eq_getElem?]
  simp only [List.length_map, List.length_range]
  rw [List.getElem?_map, List.getElem?_range (by omega : e + 1 - s - 1 < e + 1 - s)]
  have he : s + (e + 1 - s - 1) = e := by omega
  simp [he]

theorem fdiv_weekly_index (s i : Nat) :
    (((weekEnd s + 7 * i : Nat) : Int) - (s : Int)).fdiv 7 = (i : Int) := by
  have hge := weekEnd_ge s
  have hlt := weekEnd_sub_lt s
  have h1 : ((weekEnd s + 7 * i : Nat) : Int) - (s : Int) =
      ((weekEnd s - s : Nat) : Int) + (i : Int) * 7 := by
    push_cast
    omega
  rw [h1, Int.fdiv_eq_ediv _ (by norm_num : (0:Int) ≤ 7),
    Int.add_mul_ediv_right _ _ (by norm_num : (7:Int) ≠ 0),
    Int.ediv_eq_zero_of_lt (by positivity) (by exact_mod_cast hlt)]
  simp

set_option maxHeartbeats 1000000 in
/-- C1 counterexample: for the cash asset (contiguous, gap-free weekly
periods starting on a Monday) the day-based formula gives total invested
0, 100, 200 at the three periods, not 100, 200, 300 as the 1-based
index count amount * k would: the two formulas disagree at every
boundary. -/
theorem C1_counterexample :
    calculate_dca "Cash" "USD" [] 100 .weekly 0 13 =
      Except.ok
        [DcaRow.mk 0 (NumV.fin 1) (NumV.fin 100) (NumV.fin 100) (NumV.fin 0) (NumV.fin 0),
         DcaRow.mk 7 (NumV.fin 1) (NumV.fin 100) (NumV.fin 200) (NumV.fin 100) (NumV.fin 100),
         DcaRow.mk 14 (NumV.fin 1) (NumV.fin 100) (NumV.fin 300) (NumV.fin 200) (NumV.fin 200)] ∧
    [NumV.fin (0 : ℚ), NumV.fin 100, NumV.fin 200] ≠
      [NumV.fin ((100 : ℚ) * 1), NumV.fin (100 * 2), NumV.fin (100 * 3)] := by
  constructor
  · norm_num [calculate_dca, sourceSeries, dateRangeDaily, resample, binsFor, weekEnd,
      bucketMean, bucketVals, binOf, NumV.isNan, NumV.add, NumV.div, NumV.mul,
      shareCol, cumsumSkipNa, cumsumSkipNaAux, investedCol, assembleRows, freqDivisor,
      Int.fdiv, List.range_succ]
  · intro hcontra
    rw [List.cons.injEq] at hcontra
    have := hcontra.1
    rw [NumV.fin.injEq] at this
    norm_num at this

/-- C1 amended: for the cash asset under contiguous, gap-free weekly
periods, cumulative_invested at the k-th period (1-based k, 0-based
index i = k - 1) equals amount * (k - 1) exactly: the day-based formula
amount * floor(days_elapsed / 7) evaluates to the 0-based period index and
therefore differs from the index-based count amount * k by exactly one
period at every boundary. -/
theorem C1_amended (asset : String) (data : List (String × Col)) (amount : ℚ)
    (s e : Nat) (hse : s ≤ e) (rows : List DcaRow)
    (hok : calculate_dca asset "USD" data amount .weekly s e = Except.ok rows)
    (i : Nat) (hi : i < rows.length) :
    rows[i].totalInvested = NumV.fin (amount * i) := by
  obtain ⟨df, hdf, hrows⟩ := calculate_dca_ok hok
  rw [show sourceSeries "USD" data s e = some (dateRangeDaily s e) from rfl] at hdf
  injection hdf with hdf
  subst hdf
  have hrs : resample .weekly (dateRangeDaily s e) =
      (binsFor .weekly s e).map
        (fun b => (b, bucketMean .weekly (dateRangeDaily s e) b)) := by
    unfold resample
    rw [dateRangeDaily_head s e hse, dateRangeDaily_getLast s e hse]
  have h1 : (shareCol amount (resample .weekly (dateRangeDaily s e))).length =
      (resample .weekly (dateRangeDaily s e)).length := List.length_map _ _
  have h2 : (cumsumSkipNa (shareCol amount (resample .weekly (dateRangeDaily s e)))).length =
      (resample .weekly (dateRangeDaily s e)).length := by
    unfold cumsumSkipNa
    rw [length_cumsumSkipNaAux, h1]
  have h3 : (investedCol amount .weekly s (resample .weekly (dateRangeDaily s e))).length =
      (resample .weekly (dateRangeDaily s e)).length := List.length_map _ _
  have hmap := assembleRows_map_totalInvested ("USD" == "USD")
    (resample .weekly (dateRangeDaily s e)) _ _ _ h1 h2 h3
  rw [← hrows] at hmap
  have hleni : i < (rows.map (·.totalInvested)).length := by
    rw [List.length_map]; exact hi
  have hstep : rows[i].totalInvested = (rows.map (·.totalInvested))[i] :=
    (List.getElem_map _).symm
  rw [hstep, List.getElem_of_eq hmap]
  have hlen2 : i < (resample .weekly (dateRangeDaily s e)).length := by
    have hl := congrArg List.length hmap
    rw [List.length_map, h3] at hl
    rw [← hl]
    exact hi
  unfold investedCol
  rw [List.getElem_map]
  have hbin : (resample .weekly (dateRangeDaily s e))[i].1 = weekEnd s + 7 * i := by
    rw [List.getElem_of_eq hrs, List.getElem_map]
    have hlen3 : i < (binsFor .weekly s e).length := by
      have := congrArg List.length hrs
      rw [List.length_map] at this
      rw [← this]
      exact hlen2
    show (binsFor .weekly s e)[i] = weekEnd s + 7 * i
    unfold binsFor
    rw [List.getElem_map, List.getElem_range]
  rw [hbin]
  show NumV.fin (amount * ((((weekEnd s + 7 * i : Nat) : Int) - (s : Int)).fdiv 7 : ℚ)) =
    NumV.fin (amount * i)
  rw [fdiv_weekly_index]
  norm_num

set_option maxHeartbeats 1000000 in
/-- C1 witness: the amended statement applied to the concrete gap-free
cash run: at the second period (1-based k = 2, index i = 1) the invested
amount is 100 * 1. -/
theorem C1_witness :
    ([DcaRow.mk 0 (NumV.fin 1) (NumV.fin 100) (NumV.fin 100) (NumV.fin 0) (NumV.fin 0),
      DcaRow.mk 7 (NumV.fin 1) (NumV.fin 100) (NumV.fin 200) (NumV.fin 100) (NumV.fin 100),
      DcaRow.mk 14 (NumV.fin 1) (NumV.fin 100) (NumV.fin 300) (NumV.fin 200)
        (NumV.fin 200)].get ⟨1, by norm_num⟩).totalInvested = NumV.fin (100 * (1 : Nat)) :=
  C1_amended "Cash" [] 100 0 13 (by norm_num)
    [DcaRow.mk 0 (NumV.fin 1) (NumV.fin 100) (NumV.fin 100) (NumV.fin 0) (NumV.fin 0),
     DcaRow.mk 7 (NumV.fin 1) (NumV.fin 100) (NumV.fin 200) (NumV.fin 100) (NumV.fin 100),
     DcaRow.mk 14 (NumV.fin 1) (NumV.fin 100) (NumV.fin 300) (NumV.fin 200) (NumV.fin 200)]
    (by norm_num [calculate_dca, sourceSeries, dateRangeDaily, resample, binsFor, weekEnd,
      bucketMean, bucketVals, binOf, NumV.isNan, NumV.add, NumV.div, NumV.mul,
      shareCol, cumsumSkipNa, cumsumSkipNaAux, investedCol, assembleRows, freqDivisor,
      Int.fdiv, List.range_succ])
    1 (by norm_num)

/-! ### Claim C7: monotonicity of the cumulative columns -/

theorem monthEnd_ge (d : Nat) : d ≤ monthEnd d := Nat.le_add_right _ _

theorem monthBinsAux_head (fuel b t : Nat) : (monthBinsAux fuel b t).head? = some b := by
  cases fuel with
  | zero => rfl
  | succ fuel =>
    unfold monthBinsAux
    split <;> rfl

theorem monthBinsAux_chain : ∀ (fuel b t : Nat),
    List.Chain' (· < ·) (monthBinsAux fuel b t) := by
  intro fuel
  induction fuel with
  | zero => intro b t; simp [monthBinsAux]
  | succ fuel ih =>
    intro b t
    unfold monthBinsAux
    split
    · simp
    · rw [List.chain'_cons']
      refine ⟨?_, ih _ _⟩
      intro y hy
      rw [monthBinsAux_head] at hy
      simp only [Option.mem_def, Option.some.injEq] at hy
      subst hy
      calc b < b + 1 := Nat.lt_succ_self b
        _ ≤ monthEnd (b + 1) := monthEnd_ge _

theorem binsFor_chain (f : Freq) (d1 d2 : Nat) :
    List.Chain' (· < ·) (binsFor f d1 d2) := by
  cases f with
  | weekly =>
    refine List.Pairwise.chain' ?_
    refine List.Pairwise.map _ (fun a b hab => ?_) (List.pairwise_lt_range _)
    omega
  | monthly => exact monthBinsAux_chain _ _ _

theorem resample_days_chain (f : Freq) (col : Col) :
    List.Chain' (fun p q : Nat × NumV => p.1 < q.1) (resample f col) := by
  unfold resample
  cases hh : col.head? with
  | none => cases hl : col.getLast? <;> simp
  | some pf =>
    cases hl : col.getLast? with
    | none => simp
    | some pl =>
      rw [List.chain'_map]
      exact binsFor_chain f pf.1 pl.1

theorem ltb_imp_leb (x y : NumV) (h : NumV.ltb x y = true) : NumV.leb x y = true := by
  cases x <;> cases y <;> simp_all [NumV.ltb, NumV.leb] <;> linarith

theorem investedCol_chain (amount : ℚ) (ha : 0 ≤ amount) (f : Freq) (s : Nat) (rs : Col)
    (hdays : List.Chain' (fun p q : Nat × NumV => p.1 < q.1) rs) :
    List.Chain' (fun x y => NumV.leb x y = true) (investedCol amount f s rs) := by
  unfold investedCol
  rw [List.chain'_map]
  refine hdays.imp ?_
  intro p q hpq
  have hD : (0 : Int) < freqDivisor f := by cases f <;> norm_num [freqDivisor]
  have hm : ((p.1 : Int) - (s : Int)).fdiv (freqDivisor f) ≤
      ((q.1 : Int) - (s : Int)).fdiv (freqDivisor f) := by
    rw [Int.fdiv_eq_ediv _ hD.le, Int.fdiv_eq_ediv _ hD.le]
    refine Int.ediv_le_ediv hD ?_
    have : (p.1 : Int) ≤ (q.1 : Int) := by exact_mod_cast hpq.le
    omega
  simp only [NumV.leb, decide_eq_true_eq]
  exact mul_le_mul_of_nonneg_left (by exact_mod_cast hm) ha

theorem cumsumSkipNaAux_head (acc x : NumV) (xs : List NumV) (hx : x.isNan = false) :
    (cumsumSkipNaAux acc (x :: xs)).head? = some (NumV.add acc x) := by
  simp [cumsumSkipNaAux, hx]

theorem cumsumSkipNaAux_chain_lt : ∀ (xs : List NumV)
    (_ : ∀ x ∈ xs, ∃ q : ℚ, x = NumV.fin q ∧ 0 < q) (c : ℚ),
    List.Chain' (fun x y => NumV.ltb x y = true) (cumsumSkipNaAux (NumV.fin c) xs) := by
  intro xs
  induction xs with
  | nil => intro _ c; simp [cumsumSkipNaAux]
  | cons x xs ih =>
    intro hpos c
    obtain ⟨q, hq, hq0⟩ := hpos x (List.mem_cons_self _ _)
    subst hq
    rw [show cumsumSkipNaAux (NumV.fin c) (NumV.fin q :: xs) =
        NumV.fin (c + q) :: cumsumSkipNaAux (NumV.fin (c + q)) xs by
      simp [cumsumSkipNaAux, NumV.isNan, NumV.add]]
    rw [List.chain'_cons']
    refine ⟨?_, ih (fun y hy => hpos y (List.mem_cons_of_mem _ hy)) (c + q)⟩
    intro y hy
    cases xs with
    | nil => simp [cumsumSkipNaAux] at hy
    | cons z zs =>
      obtain ⟨qz, hqz, hqz0⟩ := hpos z (by simp)
      subst hqz
      rw [cumsumSkipNaAux_head _ _ _ (by rfl)] at hy
      simp only [Option.mem_def, Option.some.injEq] at hy
      subst hy
      simp only [NumV.add, NumV.ltb, decide_eq_true_eq]
      linarith

theorem shareCol_pos (amount : ℚ) (ha : 0 < amount) (rs : Col)
    (hp : ∀ p ∈ rs, ∃ q : ℚ, p.2 = NumV.fin q ∧ 0 < q) :
    ∀ x ∈ shareCol amount rs, ∃ q : ℚ, x = NumV.fin q ∧ 0 < q := by
  intro x hx
  unfold shareCol at hx
  obtain ⟨p, hpmem, hpx⟩ := List.mem_map.mp hx
  obtain ⟨q, hq, hq0⟩ := hp p hpmem
  refine ⟨amount / q, ?_, div_pos ha hq0⟩
  rw [← hpx, hq]
  simp [NumV.div, hq0.ne']

set_option maxHeartbeats 1000000 in
/-- C7 counterexample: the engine does not validate prices, so a
trajectory can have strictly decreasing cumulative shares: with a
negative representative price in the second period, cumulative shares
drop from 10 to 0, and 10 is not less-or-equal 0. -/
theorem C7_counterexample :
    calculate_dca "A" "T" [("T", [(0, NumV.fin 10), (7, NumV.fin (-10))])] 100 .weekly 0 7 =
      Except.ok
        [DcaRow.mk 0 (NumV.fin 10) (NumV.fin 10) (NumV.fin 10) (NumV.fin 0) (NumV.fin 100),
         DcaRow.mk 7 (NumV.fin (-10)) (NumV.fin (-10)) (NumV.fin 0) (NumV.fin 100)
           (NumV.fin 0)] ∧
    NumV.leb (NumV.fin 10) (NumV.fin 0) = false := by
  constructor
  · norm_num [calculate_dca, sourceSeries, lookupCol, resample, binsFor, weekEnd,
      bucketMean, bucketVals, binOf, NumV.isNan, NumV.add, NumV.div, NumV.mul,
      shareCol, cumsumSkipNa, cumsumSkipNaAux, investedCol, assembleRows, freqDivisor,
      Int.fdiv, List.range_succ, List.find?,
      show (("T" : String) == "USD") = false from rfl,
      show (("T" : String) == "T") = true from rfl]
  · simp [NumV.leb]

/-- C7 amended: provided the contribution amount is positive and every
period of the trajectory has a finite, strictly positive representative
price (no empty buckets, no zero or negative prices), cumulative invested
and cumulative shares are monotonically non-decreasing along the
trajectory, and cumulative shares is strictly increasing at every step
(each period purchases a strictly positive number of shares).  Without the
price condition the claim fails: NaN rows from empty buckets break the
ordering, and non-positive prices make cumulative shares decrease. -/
theorem C7_amended (asset ticker : String) (data : List (String × Col)) (amount : ℚ)
    (frequency : Freq) (s e : Nat) (rows : List DcaRow)
    (hok : calculate_dca asset ticker data amount frequency s e = Except.ok rows)
    (ha : 0 < amount)
    (hp : ∀ r ∈ rows, ∃ q : ℚ, r.price = NumV.fin q ∧ 0 < q) :
    List.Chain' (fun r1 r2 => NumV.leb r1.totalInvested r2.totalInvested = true) rows ∧
    List.Chain' (fun r1 r2 => NumV.leb r1.cumShares r2.cumShares = true) rows ∧
    List.Chain' (fun r1 r2 => NumV.ltb r1.cumShares r2.cumShares = true) rows := by
  obtain ⟨df, hdf, hrows⟩ := calculate_dca_ok hok
  have h1 : (shareCol amount (resample frequency df)).length =
      (resample frequency df).length := List.length_map _ _
  have h2 : (cumsumSkipNa (shareCol amount (resample frequency df))).length =
      (resample frequency df).length := by
    unfold cumsumSkipNa
    rw [length_cumsumSkipNaAux, h1]
  have h3 : (investedCol amount frequency s (resample frequency df)).length =
      (resample frequency df).length := List.length_map _ _
  have hmapti := assembleRows_map_totalInvested (ticker == "USD")
    (resample frequency df) _ _ _ h1 h2 h3
  have hmapcs := assembleRows_map_cumShares (ticker == "USD")
    (resample frequency df) _ _ _ h1 h2 h3
  have hmappr := assembleRows_map_price (ticker == "USD")
    (resample frequency df) _ _ _ h1 h2 h3
  rw [← hrows] at hmapti hmapcs hmappr
  have hrspos : ∀ p ∈ resample frequency df, ∃ q : ℚ, p.2 = NumV.fin q ∧ 0 < q := by
    intro p hpmem
    have hmem : p.2 ∈ rows.map (·.price) := by
      rw [hmappr]
      exact List.mem_map.mpr ⟨p, hpmem, rfl⟩
    obtain ⟨r, hrmem, hrp⟩ := List.mem_map.mp hmem
    obtain ⟨q, hq, hq0⟩ := hp r hrmem
    exact ⟨q, by rw [← hrp, hq], hq0⟩
  have hshpos := shareCol_pos amount ha (resample frequency df) hrspos
  have hcs_lt : List.Chain' (fun x y => NumV.ltb x y = true)
      (cumsumSkipNa (shareCol amount (resample frequency df))) :=
    cumsumSkipNaAux_chain_lt _ hshpos 0
  have hdays := resample_days_chain frequency df
  have hti : List.Chain' (fun x y => NumV.leb x y = true)
      (investedCol amount frequency s (resample frequency df)) :=
    investedCol_chain amount ha.le frequency s _ hdays
  refine ⟨?_, ?_, ?_⟩
  · rw [← hmapti] at hti
    exact (List.chain'_map _).mp hti
  · have h := hcs_lt.imp (fun x y hxy => ltb_imp_leb x y hxy)
    rw [← hmapcs] at h
    exact (List.chain'_map _).mp h
  · rw [← hmapcs] at hcs_lt
    exact (List.chain'_map _).mp hcs_lt

set_option maxHeartbeats 1000000 in
/-- C7 witness: the amended statement applied to a concrete two-period
trajectory with positive prices. -/
theorem C7_witness :
    List.Chain' (fun r1 r2 => NumV.leb r1.totalInvested r2.totalInvested = true)
      [DcaRow.mk 0 (NumV.fin 10) (NumV.fin 10) (NumV.fin 10) (NumV.fin 0) (NumV.fin 100),
       DcaRow.mk 7 (NumV.fin 20) (NumV.fin 5) (NumV.fin 15) (NumV.fin 100) (NumV.fin 300)] ∧
    List.Chain' (fun r1 r2 => NumV.leb r1.cumShares r2.cumShares = true)
      [DcaRow.mk 0 (NumV.fin 10) (NumV.fin 10) (NumV.fin 10) (NumV.fin 0) (NumV.fin 100),
       DcaRow.mk 7 (NumV.fin 20) (NumV.fin 5) (NumV.fin 15) (NumV.fin 100) (NumV.fin 300)] ∧
    List.Chain' (fun r1 r2 => NumV.ltb r1.cumShares r2.cumShares = true)
      [DcaRow.mk 0 (NumV.fin 10) (NumV.fin 10) (NumV.fin 10) (NumV.fin 0) (NumV.fin 100),
       DcaRow.mk 7 (NumV.fin 20) (NumV.fin 5) (NumV.fin 15) (NumV.fin 100) (NumV.fin 300)] :=
  C7_amended "A" "T" [("T", [(0, NumV.fin 10), (7, NumV.fin 20)])] 100 .weekly 0 7
    [DcaRow.mk 0 (NumV.fin 10) (NumV.fin 10) (NumV.fin 10) (NumV.fin 0) (NumV.fin 100),
     DcaRow.mk 7 (NumV.fin 20) (NumV.fin 5) (NumV.fin 15) (NumV.fin 100) (NumV.fin 300)]
    (by norm_num [calculate_dca, sourceSeries, lookupCol, resample, binsFor, weekEnd,
      bucketMean, bucketVals, binOf, NumV.isNan, NumV.add, NumV.div, NumV.mul,
      shareCol, cumsumSkipNa, cumsumSkipNaAux, investedCol, assembleRows, freqDivisor,
      Int.fdiv, List.range_succ, List.find?,
      show (("T" : String) == "USD") = false from rfl,
      show (("T" : String) == "T") = true from rfl])
    (by norm_num)
    (by
      intro r hr
      simp only [List.mem_cons, List.not_mem_nil, or_false] at hr
      rcases hr with h | h <;> subst h
      · exact ⟨10, rfl, by norm_num⟩
      · exact ⟨20, rfl, by norm_num⟩)

/-! ### Claim C8: cash-asset ROI -/

/-- C8: the roi_percent reported for the cash asset is exactly 0 whenever
the cash trajectory has accrued at least one completed period (final
total invested is a positive finite amount): the summary division
(t / t - 1) * 100 evaluates to exactly 0 in exact arithmetic. -/
theorem C8_theorem (asset : String) (data : List (String × Col)) (amount : ℚ)
    (frequency : Freq) (s e : Nat) (rows : List DcaRow) (r : DcaRow) (t : ℚ)
    (hok : calculate_dca asset "USD" data amount frequency s e = Except.ok rows)
    (hlast : rows.getLast? = some r) (hti : r.totalInvested = NumV.fin t)
    (hpos : 0 < t) :
    (summaryOf rows).map (·.roiPercent) = some (NumV.fin 0) := by
  obtain ⟨df, hdf, hrows⟩ := calculate_dca_ok hok
  have hmem : r ∈ rows := List.mem_of_getLast?_eq_some hlast
  have hpv : r.portfolioValue = r.totalInvested := by
    rw [hrows] at hmem
    have h := assembleRows_portfolioValue ("USD" == "USD") _ _ _ _ r hmem
    simpa using h
  have h1 : summaryOf rows = some
      { finalValue := r.portfolioValue, totalInvested := r.totalInvested,
        gain := NumV.sub r.portfolioValue r.totalInvested,
        roiPercent := NumV.mul
          (NumV.sub (NumV.div r.portfolioValue r.totalInvested) (NumV.fin 1))
          (NumV.fin 100) } := by
    unfold summaryOf
    rw [hlast]
  rw [h1]
  simp only [Option.map_some']
  rw [hpv, hti]
  have hdivtt : (t / t : ℚ) = 1 := div_self hpos.ne'
  norm_num [NumV.div, NumV.sub, NumV.neg, NumV.add, NumV.mul, hpos.ne', hdivtt]

set_option maxHeartbeats 1000000 in
/-- C8 witness: the concrete two-week cash run has final invested 200 and
reported ROI exactly 0. -/
theorem C8_witness :
    (summaryOf
      [DcaRow.mk 0 (NumV.fin 1) (NumV.fin 100) (NumV.fin 100) (NumV.fin 0) (NumV.fin 0),
       DcaRow.mk 7 (NumV.fin 1) (NumV.fin 100) (NumV.fin 200) (NumV.fin 100) (NumV.fin 100),
       DcaRow.mk 14 (NumV.fin 1) (NumV.fin 100) (NumV.fin 300) (NumV.fin 200)
         (NumV.fin 200)]).map (·.roiPercent) = some (NumV.fin 0) :=
  C8_theorem "Cash" [] 100 .weekly 0 13
    [DcaRow.mk 0 (NumV.fin 1) (NumV.fin 100) (NumV.fin 100) (NumV.fin 0) (NumV.fin 0),
     DcaRow.mk 7 (NumV.fin 1) (NumV.fin 100) (NumV.fin 200) (NumV.fin 100) (NumV.fin 100),
     DcaRow.mk 14 (NumV.fin 1) (NumV.fin 100) (NumV.fin 300) (NumV.fin 200) (NumV.fin 200)]
    (DcaRow.mk 14 (NumV.fin 1) (NumV.fin 100) (NumV.fin 300) (NumV.fin 200) (NumV.fin 200))
    200
    (by norm_num [calculate_dca, sourceSeries, dateRangeDaily, resample, binsFor, weekEnd,
      bucketMean, bucketVals, binOf, NumV.isNan, NumV.add, NumV.div, NumV.mul,
      shareCol, cumsumSkipNa, cumsumSkipNaAux, investedCol, assembleRows, freqDivisor,
      Int.fdiv, List.range_succ])
    rfl rfl (by norm_num)

end DcaApp
